import Mathlib

/-!
# Verification of `mgoutil` (`update.go`, `bson.go`)

A shallow embedding of the `mgoutil` Go package.  Go reflection values are
modelled by the inductive `GoVal`, Go types (as far as the package inspects
them) by `GoType`.  The functions `isZero`, `getStructInfo`, `AsUpdate`,
`structAsUpdate`, `nonStructAsUpdate` and `mapAsUpdate` are direct
translations of the functions of the same names in the source.

Modelling conventions:
* Go maps are represented by association lists with distinct keys; map
  assignment `m[k] = v` is `insertDoc` (replace the binding when present,
  append otherwise).
* A `nil` Go map versus an empty map is not distinguished for map *values*
  inside documents (both have length 0 everywhere the code looks), but the
  `Set`/`Unset` fields of `Update` are `Option`-wrapped so that the nil
  maps of the zero `Update` are distinguishable from initialized empty ones.
* A value whose dynamic type implements `bson.Getter` is modelled by the
  constructor `GoVal.vGetter r` where `r` is the outcome of calling
  `GetBSON` on it; a nil pointer with a pointer-receiver `GetBSON` method is
  therefore representable (its hook simply returns a sentinel value), which
  is how the code tolerates a nil reference at the top of a chain.
* Process aborts (Go `panic`) are the `fatal` constructors, ordinary
  returned errors the `err`/`some`-error forms.
* `bson.Raw` carries its BSON kind and, directly, the string-keyed document
  its data decodes to (the byte-level encoder/decoder is an external
  collaborator; see `marshalDoc`).
* The two reflection panics the update path can trigger outside
  `getStructInfo` are modelled explicitly: `v.Addr()` on a non-addressable
  resolved value (addressable exactly when the last resolution step was a
  pointer dereference; see `resolvedAddressable`) and `value.Interface()`
  on a read-only value, i.e. one read through an unexported field (see
  `fieldRO`).
-/

namespace Mgoutil

mutual

/-- Go types, as far as `bson.go`/`update.go` inspect them.  `tMap` records
only whether the key type is the string type (the only thing the code asks
of a map type).  `tTime` is `time.Time` and `tRaw` is `bson.Raw`, the two
specially-treated struct types. -/
inductive GoType : Type where
  | tString : GoType
  | tInt : GoType
  | tUint : GoType
  | tFloat : GoType
  | tBool : GoType
  | tIface : GoType
  | tTime : GoType
  | tRaw : GoType
  | tFunc : GoType
  | tPtr (elem : GoType) : GoType
  | tSlice (elem : GoType) : GoType
  | tMap (keyIsString : Bool) : GoType
  | tStruct (sname : String) (fields : List GoField) : GoType

/-- A declared struct field: name, raw bson tag (the result of
`field.Tag.Get("bson")` with the legacy no-colon fallback already applied),
`PkgPath` (empty iff exported), `Anonymous`, and the field's type. -/
inductive GoField : Type where
  | mk (fname : String) (ftag : String) (fpkgPath : String) (fanon : Bool)
      (ftyp : GoType) : GoField

end

def GoField.fname : GoField → String
  | .mk n _ _ _ _ => n

def GoField.ftag : GoField → String
  | .mk _ t _ _ _ => t

def GoField.fpkgPath : GoField → String
  | .mk _ _ p _ _ => p

def GoField.fanon : GoField → Bool
  | .mk _ _ _ a _ => a

def GoField.ftyp : GoField → GoType
  | .mk _ _ _ _ ty => ty

/-- Go reflection values.  `vGetter r` is a value whose dynamic type
implements `bson.Getter`; `r` is what calling `GetBSON` on it yields.
`vTime` carries the outcome of `time.Time.IsZero`.  `vRaw` carries the
BSON kind byte and the decoded document content of its data (see the
module comment).  `vInvalid` is the zero `reflect.Value`. -/
inductive GoVal : Type where
  | vInvalid : GoVal
  | vString (s : String) : GoVal
  | vInt (n : Int) : GoVal
  | vUint (n : Nat) : GoVal
  | vFloat (q : Rat) : GoVal
  | vBool (b : Bool) : GoVal
  | vPtr (target : Option GoVal) : GoVal
  | vIface (target : Option GoVal) : GoVal
  | vSlice (elems : List GoVal) : GoVal
  | vMap (keyIsString : Bool) (entries : List (String × GoVal)) : GoVal
  | vStruct (ty : GoType) (fields : List GoVal) : GoVal
  | vTime (isZeroTime : Bool) : GoVal
  | vRaw (kind : Nat) (doc : List (String × GoVal)) : GoVal
  | vGetter (res : Except String GoVal) : GoVal
  | vFunc : GoVal

/-- A string-keyed document: the model of `bson.M` / `map[string]...`. -/
abbrev Doc := List (String × GoVal)

mutual

/-- `isZero` from `bson.go`: the zero-value classifier, by reflection kind.
The struct case skips private non-anonymous fields and recurses; `vTime`
is the `vt == typeTime` special case.  `vRaw` is a Go struct with exported
fields `Kind byte` and `Data []byte`, so it is zero iff the kind is 0 and
the data (represented by its decoded content) is empty.  Kinds not listed
in the source's switch (func, invalid, ...) are never zero. -/
def isZero : GoVal → Bool
  | .vString s => s.length == 0
  | .vPtr t => t.isNone
  | .vIface t => t.isNone
  | .vSlice l => l.length == 0
  | .vMap _ e => e.length == 0
  | .vInt n => n == 0
  | .vUint n => n == 0
  | .vFloat q => q == 0
  | .vBool b => !b
  | .vTime z => z
  | .vRaw k d => k == 0 && d.isEmpty
  | .vStruct ty fs =>
    match ty with
    | .tStruct _ tfs => fieldsZero tfs fs
    | _ => true
  | _ => false

/-- The loop of `isZero`'s struct case: all visible fields recursively
zero (a private non-anonymous field is skipped, i.e. counts as zero). -/
def fieldsZero : List GoField → List GoVal → Bool
  | tf :: tfs, v :: vs =>
    (if tf.fpkgPath ≠ "" && !tf.fanon then true else isZero v) && fieldsZero tfs vs
  | _, _ => true

end

/-- Outcome of a Go call that can return a value, return an error, or
abort the process (`panic`). -/
inductive GoRes (α : Type) : Type where
  | ok (a : α) : GoRes α
  | err (msg : String) : GoRes α
  | fatal (msg : String) : GoRes α

/-- The `Update` struct of `update.go`.  The `Option` wrapping models Go's
nil versus initialized-but-empty maps: the zero `Update` has both nil. -/
structure Update where
  set : Option Doc
  unset : Option Doc

/-- `Update{}`: the zero value returned alongside every error. -/
def Update.zero : Update := ⟨none, none⟩

/-- Outcome of the functions returning `(Update, error)`: a normal return
carries both the update and the (optional) error, as in Go; `fatal` is a
panic. -/
inductive UpdResult : Type where
  | ret (u : Update) (e : Option String) : UpdResult
  | fatal (msg : String) : UpdResult

/-- The resolution loop at the top of `AsUpdate`: follow `bson.Getter`
hooks (wrapping a hook error as "GetBSON failed: ...") and dereference
pointers until neither applies.  Dereferencing a nil pointer yields the
zero `reflect.Value`, on which the next `v.Interface()` call panics; a nil
pointer whose type carries the hook is a `vGetter` and never reaches that
point. -/
def resolve : GoVal → GoRes GoVal
  | .vInvalid => .fatal "reflect: call of reflect.Value.Interface on zero Value"
  | .vGetter (.error e) => .err ("GetBSON failed: " ++ e)
  | .vGetter (.ok v) => resolve v
  | .vPtr (some t) => resolve t
  | .vPtr none => .fatal "reflect: call of reflect.Value.Interface on zero Value"
  | v => .ok v

/-- A value on which the resolution loop of `AsUpdate` stops immediately:
neither hook-bearing nor a pointer nor the invalid value. -/
def isTerminal : GoVal → Bool
  | .vInvalid => false
  | .vGetter _ => false
  | .vPtr _ => false
  | _ => true

/-- Whether the value the resolution loop stops at is *addressable*.  In
Go, `reflect.ValueOf(x)` (the start of the loop, and the value after every
`GetBSON` hook call) is not addressable, while `v.Elem()` of a pointer is;
so the resolved value is addressable exactly when the *last* step of the
loop was a pointer dereference.  The `v.Addr()` call on the `bson.Raw`
dispatch path of `AsUpdate` panics when this is false. -/
def resolvedAddressable : GoVal → Bool
  | .vGetter (.ok v) => resolvedAddressable v
  | .vPtr (some t) => if isTerminal t then true else resolvedAddressable t
  | _ => false

/-- The `fieldInfo` struct of `bson.go`.  `inl` is the `Inline` index path
(`nil` in Go is `none` here). -/
structure FieldInfo where
  key : String
  num : Nat
  omitEmpty : Bool
  minSize : Bool
  inl : Option (List Nat)

/-- The `structInfo` struct of `bson.go`.  `fieldsMap` is the Go map as an
association list; `inlineMap` keeps the Go convention of `-1` for absent.
(The `Zero` field of the source is unused by `update.go` and omitted.) -/
structure StructInfo where
  fieldsMap : List (String × FieldInfo)
  fieldsList : List FieldInfo
  inlineMap : Int

/-- `strings.Split(s, ",")`, by structural recursion on the characters. -/
def splitCommaAux : List Char → List Char → List String
  | [], acc => [String.mk acc.reverse]
  | c :: cs, acc =>
    if c == ',' then String.mk acc.reverse :: splitCommaAux cs []
    else splitCommaAux cs (c :: acc)

def splitComma (s : String) : List String := splitCommaAux s.data []

/-- `strings.ToLower` (ASCII as used by the package). -/
def lowerStr (s : String) : String := String.mk (s.data.map Char.toLower)

/-- The three recognized tag flags. -/
structure TagFlags where
  omitEmpty : Bool
  minSize : Bool
  inlineFlag : Bool

/-- The flag loop of `getStructInfo`: an unrecognized flag panics with the
`Unsupported flag %q in tag %q of type %s` message. -/
def parseFlags (tag : String) (tyName : String) : List String → TagFlags → GoRes TagFlags
  | [], fl => .ok fl
  | f :: rest, fl =>
    if f == "omitempty" then parseFlags tag tyName rest { fl with omitEmpty := true }
    else if f == "minsize" then parseFlags tag tyName rest { fl with minSize := true }
    else if f == "inline" then parseFlags tag tyName rest { fl with inlineFlag := true }
    else .fatal ("Unsupported flag \"" ++ f ++ "\" in tag \"" ++ tag ++ "\" of type " ++ tyName)

/-- `fields := strings.Split(tag, ","); if len(fields) > 1 { parse flags;
tag = fields[0] }`. -/
def tagAndFlags (tag : String) (tyName : String) : GoRes (String × TagFlags) :=
  match splitComma tag with
  | [] => .ok (tag, ⟨false, false, false⟩)
  | [_] => .ok (tag, ⟨false, false, false⟩)
  | t0 :: f1 :: rest =>
    match parseFlags tag tyName (f1 :: rest) ⟨false, false, false⟩ with
    | .ok fl => .ok (t0, fl)
    | .err m => .err m
    | .fatal m => .fatal m

/-- The splicing loop of `getStructInfo`'s inline-struct case: each field
of the inlined struct is checked against the keys collected so far
(duplicate keys are an error naming the key and the *outer* struct), its
inline path is prefixed with the embedding field's ordinal `i`, and it is
added to both the map and the list. -/
def spliceLoop (stName : String) (i : Nat) :
    List FieldInfo → List (String × FieldInfo) → List FieldInfo →
    GoRes (List (String × FieldInfo) × List FieldInfo)
  | [], fm, fl => .ok (fm, fl)
  | finfo :: rest, fm, fl =>
    if (fm.lookup finfo.key).isSome then
      .err ("Duplicated key \u0027" ++ finfo.key ++ "\u0027 in struct " ++ stName)
    else
      let finfo2 : FieldInfo :=
        { finfo with inl := match finfo.inl with
            | none => some [i, finfo.num]
            | some l => some (i :: l) }
      spliceLoop stName i rest (fm ++ [(finfo2.key, finfo2)]) (fl ++ [finfo2])

/-- The inline-map arm of `getStructInfo`'s field loop: at most one inline
map per struct, its keys must be strings, and its ordinal is recorded as
`inlineMap`. -/
def mapInlineStep (sname : String) (keyIsString : Bool) (i : Nat)
    (fm : List (String × FieldInfo)) (fl : List FieldInfo) (im : Int) :
    GoRes (List (String × FieldInfo) × List FieldInfo × Int) :=
  if im ≥ 0 then .err ("Multiple ,inline maps in struct " ++ sname)
  else if !keyIsString then
    .err ("Option ,inline needs a map with string keys in struct " ++ sname)
  else .ok (fm, fl, Int.ofNat i)

/-- The plain-field arm of `getStructInfo`'s field loop: `key` is the
explicit tag key or the lowercased field name; a duplicate is an error
naming the key and the struct, otherwise the field is appended to the map
and the list. -/
def directFieldStep (sname key : String) (flags : TagFlags) (i : Nat)
    (fm : List (String × FieldInfo)) (fl : List FieldInfo) (im : Int) :
    GoRes (List (String × FieldInfo) × List FieldInfo × Int) :=
  if (fm.lookup key).isSome then
    .err ("Duplicated key \u0027" ++ key ++ "\u0027 in struct " ++ sname)
  else
    .ok (fm ++ [(key, ⟨key, i, flags.omitEmpty, flags.minSize, none⟩)],
      fl ++ [⟨key, i, flags.omitEmpty, flags.minSize, none⟩], im)

mutual

/-- `getStructInfo` from `bson.go`, without the (semantically transparent)
process-wide cache: build the field map/list over the declared fields in
order.  Calling it on a non-struct type would panic in `st.NumField()`. -/
def getStructInfo : GoType → GoRes StructInfo
  | .tStruct sname flds => structInfoLoop sname flds 0 [] [] (-1)
  | _ => .fatal "reflect: NumField of non-struct type"

/-- The field loop of `getStructInfo`; `i` is the ordinal of the next
field, `fm`/`fl`/`im` the state of `fieldsMap`/`fieldsList`/`inlineMap`;
each iteration is `structInfoStep`. -/
def structInfoLoop (sname : String) :
    List GoField → Nat → List (String × FieldInfo) → List FieldInfo → Int →
    GoRes StructInfo
  | [], _, fm, fl, im => .ok ⟨fm, fl, im⟩
  | f :: rest, i, fm, fl, im =>
    match structInfoStep sname f i fm fl im with
    | .fatal m => .fatal m
    | .err m => .err m
    | .ok (fm2, fl2, im2) => structInfoLoop sname rest (i + 1) fm2 fl2 im2

/-- One iteration of `getStructInfo`'s field loop: skip private
non-anonymous fields and `-`-tagged fields, parse the tag's flags
(panicking on an unsupported one), dispatch inline fields on their kind
(any kind other than map or struct panics), and otherwise add the field
under its explicit key or its lowercased name. -/
def structInfoStep (sname : String) :
    GoField → Nat → List (String × FieldInfo) → List FieldInfo → Int →
    GoRes (List (String × FieldInfo) × List FieldInfo × Int)
  | .mk fnam ftg fpkg fan ftyp, i, fm, fl, im =>
    if fpkg ≠ "" && !fan then .ok (fm, fl, im)
    else if ftg == "-" then .ok (fm, fl, im)
    else
      match tagAndFlags ftg sname with
      | .fatal m => .fatal m
      | .err m => .err m
      | .ok (tag2, flags) =>
        if flags.inlineFlag then
          match ftyp with
          | .tMap keyIsString => mapInlineStep sname keyIsString i fm fl im
          | .tStruct s2 f2 =>
            match getStructInfo (.tStruct s2 f2) with
            | .fatal m => .fatal m
            | .err m => .err m
            | .ok sub =>
              match spliceLoop sname i sub.fieldsList fm fl with
              | .fatal m => .fatal m
              | .err m => .err m
              | .ok (fm2, fl2) => .ok (fm2, fl2, im)
          | _ => .fatal "Option ,inline needs a struct value or map field"
        else
          directFieldStep sname (if tag2 ≠ "" then tag2 else lowerStr fnam)
            flags i fm fl im

end

/-- Go map assignment `m[k] = v` on the association-list model: replace
the binding when the key is present, append otherwise. -/
def insertDoc (m : Doc) (k : String) (x : GoVal) : Doc :=
  if m.any (fun p => p.1 == k) then
    m.map (fun p => if p.1 == k then (k, x) else p)
  else m ++ [(k, x)]

/-- `v.Field(i)` on a struct value. -/
def structField : GoVal → Nat → GoVal
  | .vStruct _ vs, i => vs.getD i .vInvalid
  | _, _ => .vInvalid

/-- `v.FieldByIndex(path)`. -/
def fieldByIndex : GoVal → List Nat → GoVal
  | v, [] => v
  | v, i :: rest => fieldByIndex (structField v i) rest

/-- The value `structAsUpdate` reads for a field: `v.Field(info.Num)` when
the field is declared directly, `v.FieldByIndex(info.Inline)` when it was
spliced in from an inlined struct. -/
def fieldVal (v : GoVal) (info : FieldInfo) : GoVal :=
  match info.inl with
  | none => structField v info.num
  | some path => fieldByIndex v path

/-- Whether reading the field at index path `path` of a value of type `ty`
passes through an unexported field (non-empty `PkgPath`).  Go marks such a
value read-only, and `value.Interface()` on a read-only value panics.
(`getStructInfo` only skips unexported *non-anonymous* fields, so an
unexported anonymous — embedded — field does get a descriptor entry and is
read by `structAsUpdate`.) -/
def fieldRO : GoType → List Nat → Bool
  | _, [] => false
  | .tStruct _ flds, i :: rest =>
    match flds[i]? with
    | some f => if f.fpkgPath ≠ "" then true else fieldRO f.ftyp rest
    | none => false
  | _, _ :: _ => false

/-- Whether the value `structAsUpdate` reads for `info` is read-only: the
access path (`[info.Num]` for a directly declared field, `info.Inline` for
a spliced one) passes through an unexported field of `ty`. -/
def fieldPathRO (ty : GoType) (info : FieldInfo) : Bool :=
  match info.inl with
  | none => fieldRO ty [info.num]
  | some path => fieldRO ty path

/-- The inline-map loop of `structAsUpdate`: each entry of the inlined map
is checked against the declared field keys (a collision is a returned
error naming the key), the reserved `_id` key is silently dropped, and
every other entry is assigned into `Set`. -/
def inlineLoop (fm : List (String × FieldInfo)) : Doc → Doc → GoRes Doc
  | [], acc => .ok acc
  | (k, x) :: rest, acc =>
    if (fm.lookup k).isSome then
      .err ("Can\u0027t have key \"" ++ k ++ "\" in inlined map; conflicts with struct field")
    else if k ≠ "_id" then inlineLoop fm rest (insertDoc acc k x)
    else inlineLoop fm rest acc

/-- The field loop of `structAsUpdate`: in `FieldsList` order, skip the
`_id` key, then route the field to `Unset` (placeholder `nil`) when it is
`omitempty` and its value is classified zero, and to `Set` (with its
current value) otherwise.  The `Set` assignment extracts the current value
with `value.Interface()`, which panics — the `.error` outcome here, turned
into a process abort by `structAsUpdate` — when the value was obtained
through an unexported field (`fieldPathRO`); the `Unset` branch stores a
literal `nil` and performs no extraction. -/
def fieldsLoop (ty : GoType) (v : GoVal) :
    List FieldInfo → Doc → Doc → Except String (Doc × Doc)
  | [], s, u => .ok (s, u)
  | info :: rest, s, u =>
    if info.key == "_id" then fieldsLoop ty v rest s u
    else
      let value := fieldVal v info
      if info.omitEmpty && isZero value then
        fieldsLoop ty v rest s (insertDoc u info.key (.vIface none))
      else
        if fieldPathRO ty info then
          .error "reflect.Value.Interface: cannot return value obtained from unexported field or method"
        else
          fieldsLoop ty v rest (insertDoc s info.key value) u

/-- The inline-map phase of `structAsUpdate`: when the descriptor records
an inline-map ordinal, read that field (it must be a map, or the `Len`
call would panic) and, when non-empty, run the entry loop starting from
the freshly initialized (empty) `Set`. -/
def inlineSet (sinfo : StructInfo) (v : GoVal) : GoRes Doc :=
  if sinfo.inlineMap ≥ 0 then
    match structField v sinfo.inlineMap.toNat with
    | .vMap _ entries =>
      if entries.length ≠ 0 then inlineLoop sinfo.fieldsMap entries []
      else .ok []
    | _ => .fatal "reflect: call of reflect.Value.Len on non-map Value"
  else .ok []

/-- `structAsUpdate` from `update.go`: fetch the descriptor, initialize
both `Set` and `Unset` to empty (non-nil) maps, merge a non-empty inline
map first (`inlineSet`), then partition the declared fields
(`fieldsLoop`).  A `value.Interface()` panic inside the field loop aborts
the process. -/
def structAsUpdate (v : GoVal) : UpdResult :=
  match v with
  | .vStruct ty vals =>
    match getStructInfo ty with
    | .fatal m => .fatal m
    | .err e => .ret Update.zero (some e)
    | .ok sinfo =>
      match inlineSet sinfo (.vStruct ty vals) with
      | .fatal m => .fatal m
      | .err e => .ret Update.zero (some e)
      | .ok set0 =>
        match fieldsLoop ty (.vStruct ty vals) sinfo.fieldsList set0 [] with
        | .error m => .fatal m
        | .ok su => .ret ⟨some su.1, some su.2⟩ none
  | _ => .fatal "structAsUpdate: non-struct value"

/-- The entries of the record's inline mapping field, if the descriptor
designates one ([] otherwise): the value-dependent part of a record's
document keys. -/
def inlineEntries (sinfo : StructInfo) (v : GoVal) : Doc :=
  if sinfo.inlineMap ≥ 0 then
    match structField v sinfo.inlineMap.toNat with
    | .vMap _ entries => entries
    | _ => []
  else []

/-- The Go reflection kind name of a value, as printed in bson marshal
errors. -/
def kindName : GoVal → String
  | .vInvalid => "invalid"
  | .vString _ => "string"
  | .vInt _ => "int"
  | .vUint _ => "uint"
  | .vFloat _ => "float64"
  | .vBool _ => "bool"
  | .vPtr _ => "ptr"
  | .vIface _ => "interface"
  | .vSlice _ => "slice"
  | .vMap _ _ => "map"
  | .vStruct _ _ => "struct"
  | .vTime _ => "struct"
  | .vRaw _ _ => "Raw"
  | .vGetter _ => "getter"
  | .vFunc => "func"

/-- Modelled from the spec: the external encoder (`bson.Marshal`) composed
with decoding back into a generic string-keyed mapping (`bson.Unmarshal`
into `map[string]bson.Raw`), the collaborator of §6 of the spec used only
by the opaque-document/fallback path.  A `bson.Raw` of document kind (3)
round-trips to its document content; a `Raw` of any other kind fails with
the `Attempted to marshal Raw kind ...` error; a value that is not a
document root fails with the `Can\u0027t marshal ... as a BSON document` error.
(Struct and string-keyed map values would also round-trip, but `AsUpdate`
dispatches those before the fallback, so they never reach this function.) -/
def marshalDoc : GoVal → Except String Doc
  | .vRaw 3 doc => .ok doc
  | .vRaw k _ =>
    .error ("Attempted to marshal Raw kind " ++ toString k ++ " as a document")
  | v => .error ("Can\u0027t marshal " ++ kindName v ++ " as a BSON document")

/-- The `mapAsUpdate` loop: every entry except the reserved `_id` key
becomes a `Set` assignment. -/
def mapLoop : Doc → Doc → Doc
  | [], acc => acc
  | (k, x) :: rest, acc =>
    if k == "_id" then mapLoop rest acc else mapLoop rest (insertDoc acc k x)

/-- `mapAsUpdate` from `update.go`: reject non-string key types, else
initialize both maps and assign every non-`_id` entry into `Set`. -/
def mapAsUpdate (keyIsString : Bool) (entries : Doc) : UpdResult :=
  if keyIsString then .ret ⟨some (mapLoop entries []), some []⟩ none
  else .ret Update.zero (some "map key not a string")

/-- `nonStructAsUpdate` from `update.go`: marshal the value, decode it
back into a string-keyed mapping and treat it as the mapping case.  A
marshal failure is wrapped as `cannot marshal: ...`; decoding data the
encoder just produced cannot fail, so the `bson.Unmarshal` error branch is
not reachable in the model. -/
def nonStructAsUpdate (v : GoVal) : UpdResult :=
  match marshalDoc v with
  | .error e => .ret Update.zero (some ("cannot marshal: " ++ e))
  | .ok doc => mapAsUpdate true doc

/-- `AsUpdate` from `update.go`: resolve `bson.Getter` hooks and pointers,
then dispatch on the resolved value — `bson.Raw` first (the
`v.Type() == typeRaw` check), then map, struct, and the marshal/decode
fallback for everything else.  The `Raw` branch calls
`nonStructAsUpdate(v.Addr())`: `v.Addr()` panics unless the resolved value
is addressable (`resolvedAddressable`), and marshaling the resulting
`*bson.Raw` pointer dereferences it again, so on the addressable path the
branch behaves as marshaling the `Raw` itself. -/
def AsUpdate (x : GoVal) : UpdResult :=
  match resolve x with
  | .fatal m => .fatal m
  | .err e => .ret Update.zero (some e)
  | .ok v =>
    match v with
    | .vRaw k doc =>
      if resolvedAddressable x then nonStructAsUpdate (.vRaw k doc)
      else .fatal "reflect.Value.Addr of unaddressable value"
    | .vMap keyIsString entries => mapAsUpdate keyIsString entries
    | .vStruct ty vals => structAsUpdate (.vStruct ty vals)
    | other => nonStructAsUpdate other

/-- The keys of an optional document (`[]` for a nil map). -/
def docKeys : Option Doc → List String
  | none => []
  | some d => d.map Prod.fst

/-- The keys of an association list. -/
def keysOf {α : Type} (m : List (String × α)) : List String := m.map Prod.fst

/-! ## Association-list lemmas -/

theorem keysOf_append {α : Type} (m₁ m₂ : List (String × α)) :
    keysOf (m₁ ++ m₂) = keysOf m₁ ++ keysOf m₂ := by
  simp [keysOf]

theorem mem_keysOf {α : Type} {m : List (String × α)} {a : String} :
    a ∈ keysOf m ↔ ∃ x, (a, x) ∈ m := by
  simp only [keysOf, List.mem_map]
  constructor
  · rintro ⟨⟨k, x⟩, hm, rfl⟩
    exact ⟨x, hm⟩
  · rintro ⟨x, hm⟩
    exact ⟨(a, x), hm, rfl⟩

theorem any_key_eq {α : Type} (m : List (String × α)) (k : String) :
    (m.any fun p => p.1 == k) = true ↔ k ∈ keysOf m := by
  simp only [List.any_eq_true, keysOf, List.mem_map, beq_iff_eq]

theorem lookup_eq_none_iff {α : Type} (m : List (String × α)) (a : String) :
    m.lookup a = none ↔ a ∉ keysOf m := by
  induction m with
  | nil => simp [keysOf]
  | cons p rest ih =>
    obtain ⟨k, x⟩ := p
    by_cases h : a = k
    · subst h
      simp [List.lookup_cons, keysOf]
    · simp [List.lookup_cons, beq_false_of_ne h, ih, keysOf, h]

theorem lookup_isSome_iff {α : Type} (m : List (String × α)) (a : String) :
    (m.lookup a).isSome = true ↔ a ∈ keysOf m := by
  rw [← Decidable.not_iff_not, ← lookup_eq_none_iff]
  cases m.lookup a <;> simp

theorem lookup_append {α : Type} (m₁ m₂ : List (String × α)) (a : String) :
    (m₁ ++ m₂).lookup a =
      match m₁.lookup a with
      | some b => some b
      | none => m₂.lookup a := by
  induction m₁ with
  | nil => simp
  | cons p rest ih =>
    obtain ⟨k, x⟩ := p
    by_cases h : a = k
    · subst h
      simp [List.lookup_cons]
    · simp [List.lookup_cons, beq_false_of_ne h, ih]

theorem lookup_append_left {α : Type} {m₁ : List (String × α)} {a : String}
    (m₂ : List (String × α)) {b : α} (h : m₁.lookup a = some b) :
    (m₁ ++ m₂).lookup a = some b := by
  rw [lookup_append, h]

theorem lookup_append_right {α : Type} {m₁ : List (String × α)} {a : String}
    (m₂ : List (String × α)) (h : a ∉ keysOf m₁) :
    (m₁ ++ m₂).lookup a = m₂.lookup a := by
  rw [lookup_append, (lookup_eq_none_iff m₁ a).mpr h]

theorem any_key_false {m : Doc} {k : String} (h : k ∉ keysOf m) :
    (m.any fun p => p.1 == k) = false := by
  rw [Bool.eq_false_iff]
  intro hh
  exact h ((any_key_eq m k).mp hh)

theorem insertDoc_of_not_mem {m : Doc} {k : String} (x : GoVal)
    (h : k ∉ keysOf m) : insertDoc m k x = m ++ [(k, x)] := by
  simp [insertDoc, any_key_false h]

theorem keysOf_replace (m : Doc) (k : String) (x : GoVal) :
    keysOf (m.map fun p => if p.1 == k then (k, x) else p) = keysOf m := by
  simp only [keysOf, List.map_map]
  apply List.map_congr_left
  intro p _
  by_cases hp : p.1 = k
  · simp [Function.comp, hp]
  · simp [Function.comp, beq_false_of_ne hp]

theorem lookup_replace_self (m : Doc) (k : String) (x : GoVal)
    (h : k ∈ keysOf m) :
    (m.map fun p => if p.1 == k then (k, x) else p).lookup k = some x := by
  induction m with
  | nil => simp [keysOf] at h
  | cons p rest ih =>
    obtain ⟨k2, x2⟩ := p
    simp only [List.map_cons]
    by_cases hk : k2 = k
    · rw [if_pos (by simp [hk])]
      simp [List.lookup_cons]
    · rw [if_neg (by simp [hk])]
      have hmem : k ∈ keysOf rest := by
        simp only [keysOf, List.map_cons, List.mem_cons] at h
        rcases h with h1 | h1
        · exact absurd h1.symm hk
        · exact h1
      rw [List.lookup_cons]
      simp only [beq_false_of_ne (fun he => hk he.symm)]
      exact ih hmem

theorem lookup_replace_ne (m : Doc) {k a : String} (x : GoVal) (h : a ≠ k) :
    (m.map fun p => if p.1 == k then (k, x) else p).lookup a = m.lookup a := by
  induction m with
  | nil => simp
  | cons p rest ih =>
    obtain ⟨k2, x2⟩ := p
    simp only [List.map_cons]
    by_cases hk : k2 = k
    · rw [if_pos (by simp [hk])]
      rw [List.lookup_cons, List.lookup_cons]
      have h2 : a ≠ k2 := fun he => h (he.trans hk)
      simp only [beq_false_of_ne h, beq_false_of_ne h2]
      exact ih
    · rw [if_neg (by simp [hk])]
      rw [List.lookup_cons, List.lookup_cons]
      by_cases ha : a = k2
      · simp [ha]
      · simp only [beq_false_of_ne ha]
        exact ih

theorem keysOf_insertDoc (m : Doc) (k : String) (x : GoVal) :
    keysOf (insertDoc m k x) =
      if k ∈ keysOf m then keysOf m else keysOf m ++ [k] := by
  by_cases h : k ∈ keysOf m
  · rw [if_pos h]
    unfold insertDoc
    rw [if_pos ((any_key_eq m k).mpr h)]
    exact keysOf_replace m k x
  · rw [if_neg h, insertDoc_of_not_mem x h, keysOf_append]
    rfl

theorem mem_keysOf_insertDoc {m : Doc} {k a : String} {x : GoVal} :
    a ∈ keysOf (insertDoc m k x) ↔ a ∈ keysOf m ∨ a = k := by
  rw [keysOf_insertDoc]
  by_cases h : k ∈ keysOf m
  · rw [if_pos h]
    constructor
    · exact Or.inl
    · rintro (ha | rfl)
      · exact ha
      · exact h
  · rw [if_neg h]
    simp

theorem lookup_insertDoc_self (m : Doc) (k : String) (x : GoVal) :
    (insertDoc m k x).lookup k = some x := by
  by_cases h : k ∈ keysOf m
  · unfold insertDoc
    rw [if_pos ((any_key_eq m k).mpr h)]
    exact lookup_replace_self m k x h
  · rw [insertDoc_of_not_mem x h, lookup_append_right _ h]
    simp [List.lookup_cons]

theorem lookup_insertDoc_ne {m : Doc} {k a : String} (x : GoVal) (h : a ≠ k) :
    (insertDoc m k x).lookup a = m.lookup a := by
  by_cases hm : k ∈ keysOf m
  · unfold insertDoc
    rw [if_pos ((any_key_eq m k).mpr hm)]
    exact lookup_replace_ne m x h
  · rw [insertDoc_of_not_mem x hm, lookup_append]
    cases hma : m.lookup a with
    | some b => rfl
    | none => simp [List.lookup_cons, beq_false_of_ne h]

/-! ## Characterization of the map loop -/

theorem mapLoop_eq (entries : Doc) (acc : Doc) (hnd : (keysOf entries).Nodup)
    (hdisj : ∀ a ∈ keysOf entries, a ∉ keysOf acc) :
    mapLoop entries acc = acc ++ entries.filter fun p => !(p.1 == "_id") := by
  induction entries generalizing acc with
  | nil => simp [mapLoop]
  | cons p rest ih =>
    obtain ⟨k, x⟩ := p
    have hkeys : keysOf ((k, x) :: rest) = k :: keysOf rest := rfl
    rw [hkeys] at hnd hdisj
    have hnd2 : (keysOf rest).Nodup := hnd.of_cons
    have hk : k ∉ keysOf rest := (List.nodup_cons.mp hnd).1
    by_cases h : k = "_id"
    · subst h
      simp only [mapLoop, beq_self_eq_true, if_true, List.filter_cons]
      norm_num
      exact ih acc hnd2 (fun a ha => hdisj a (List.mem_cons_of_mem _ ha))
    · have hins : insertDoc acc k x = acc ++ [(k, x)] :=
        insertDoc_of_not_mem x (hdisj k (List.mem_cons_self k _))
      simp only [mapLoop, beq_false_of_ne h, List.filter_cons]
      norm_num [h]
      rw [hins, ih (acc ++ [(k, x)]) hnd2, List.append_assoc, List.singleton_append]
      intro a ha
      rw [keysOf_append]
      simp only [List.mem_append]
      rintro (h1 | h1)
      · exact hdisj a (List.mem_cons_of_mem _ ha) h1
      · have : a = k := by simpa [keysOf] using h1
        exact hk (this ▸ ha)

theorem mapLoop_no_id (entries : Doc) (acc : Doc)
    (h : "_id" ∉ keysOf acc) : "_id" ∉ keysOf (mapLoop entries acc) := by
  induction entries generalizing acc with
  | nil => simpa [mapLoop] using h
  | cons p rest ih =>
    obtain ⟨k, x⟩ := p
    by_cases hk : k = "_id"
    · subst hk
      simp only [mapLoop, beq_self_eq_true, if_true]
      exact ih acc h
    · simp only [mapLoop, beq_false_of_ne hk]
      norm_num
      apply ih
      intro hmem
      rcases mem_keysOf_insertDoc.mp hmem with h1 | h1
      · exact h h1
      · exact hk h1.symm

/-! ## Characterization of the inline-map loop -/

theorem inlineLoop_ok_fresh {fm : List (String × FieldInfo)} {entries acc res : Doc}
    (h : inlineLoop fm entries acc = .ok res) :
    ∀ a ∈ keysOf entries, fm.lookup a = none := by
  induction entries generalizing acc with
  | nil => simp [keysOf]
  | cons p rest ih =>
    obtain ⟨k, x⟩ := p
    simp only [inlineLoop] at h
    intro a ha
    rcases List.mem_cons.mp ha with h1 | h1
    · subst h1
      by_cases hc : (fm.lookup a).isSome
      · rw [if_pos hc] at h
        cases h
      · cases hlk : fm.lookup a with
        | none => rfl
        | some b => rw [hlk] at hc; simp at hc
    · by_cases hc : (fm.lookup k).isSome
      · rw [if_pos hc] at h
        cases h
      · rw [if_neg hc] at h
        split at h
        · exact ih h a h1
        · exact ih h a h1

theorem inlineLoop_ok_eq {fm : List (String × FieldInfo)} {entries acc res : Doc}
    (hnd : (keysOf entries).Nodup)
    (hdisj : ∀ a ∈ keysOf entries, a ∉ keysOf acc)
    (h : inlineLoop fm entries acc = .ok res) :
    res = acc ++ entries.filter fun p => !(p.1 == "_id") := by
  induction entries generalizing acc with
  | nil =>
    simp only [inlineLoop] at h
    cases h
    simp
  | cons p rest ih =>
    obtain ⟨k, x⟩ := p
    have hkeys : keysOf ((k, x) :: rest) = k :: keysOf rest := rfl
    rw [hkeys] at hnd hdisj
    have hnd2 : (keysOf rest).Nodup := hnd.of_cons
    have hk : k ∉ keysOf rest := (List.nodup_cons.mp hnd).1
    simp only [inlineLoop] at h
    split at h
    · cases h
    · split at h
      · have hins : insertDoc acc k x = acc ++ [(k, x)] :=
          insertDoc_of_not_mem x (hdisj k (List.mem_cons_self k _))
        rw [hins] at h
        have hne : ¬(k = "_id") := by assumption
        have := ih hnd2 (fun a ha => by
          rw [keysOf_append]
          simp only [List.mem_append]
          rintro (h1 | h1)
          · exact hdisj a (List.mem_cons_of_mem _ ha) h1
          · have ha2 : a = k := by simpa [keysOf] using h1
            exact hk (ha2 ▸ ha)) h
        rw [this, List.append_assoc, List.singleton_append, List.filter_cons]
        norm_num [hne]
      · have hid : k = "_id" := by
          by_contra hne
          simp_all
        have := ih hnd2 (fun a ha => hdisj a (List.mem_cons_of_mem _ ha)) h
        rw [this, List.filter_cons]
        norm_num [hid]

theorem inlineLoop_ok_no_id {fm : List (String × FieldInfo)} {entries acc res : Doc}
    (hacc : "_id" ∉ keysOf acc) (h : inlineLoop fm entries acc = .ok res) :
    "_id" ∉ keysOf res := by
  induction entries generalizing acc with
  | nil =>
    simp only [inlineLoop] at h
    cases h
    exact hacc
  | cons p rest ih =>
    obtain ⟨k, x⟩ := p
    simp only [inlineLoop] at h
    split at h
    · cases h
    · split at h
      · have hne : ¬(k = "_id") := by assumption
        apply ih _ h
        intro hmem
        rcases mem_keysOf_insertDoc.mp hmem with h1 | h1
        · exact hacc h1
        · exact hne h1.symm
      · exact ih hacc h

theorem inlineLoop_err_of_collision (fm : List (String × FieldInfo))
    (entries acc : Doc)
    (hcol : ∃ a ∈ keysOf entries, (fm.lookup a).isSome = true) :
    ∃ k, k ∈ keysOf entries ∧ (fm.lookup k).isSome = true ∧
      inlineLoop fm entries acc =
        .err ("Can\u0027t have key \"" ++ k ++ "\" in inlined map; conflicts with struct field") := by
  induction entries generalizing acc with
  | nil => simp [keysOf] at hcol
  | cons p rest ih =>
    obtain ⟨k, x⟩ := p
    by_cases hc : (fm.lookup k).isSome = true
    · refine ⟨k, List.mem_cons_self k _, hc, ?_⟩
      simp only [inlineLoop, if_pos hc]
    · have hcol2 : ∃ a ∈ keysOf rest, (fm.lookup a).isSome = true := by
        rcases hcol with ⟨a, ha, hs⟩
        rcases List.mem_cons.mp ha with h1 | h1
        · have h1k : a = k := h1
          rw [h1k] at hs
          exact absurd hs hc
        · exact ⟨a, h1, hs⟩
      by_cases hid : k = "_id"
      · obtain ⟨k2, hk2, hs2, heq⟩ := ih acc hcol2
        refine ⟨k2, List.mem_cons_of_mem _ hk2, hs2, ?_⟩
        rw [inlineLoop, if_neg hc, if_neg (by simp [hid])]
        exact heq
      · obtain ⟨k2, hk2, hs2, heq⟩ := ih (insertDoc acc k x) hcol2
        refine ⟨k2, List.mem_cons_of_mem _ hk2, hs2, ?_⟩
        rw [inlineLoop, if_neg hc, if_pos hid]
        exact heq

/-! ## Characterization of the field loop -/

theorem fieldsLoop_eq (ty : GoType) (v : GoVal) (infos : List FieldInfo) (s u : Doc)
    (hnd : (infos.map FieldInfo.key).Nodup)
    (hs : ∀ a ∈ infos.map FieldInfo.key, a ∉ keysOf s)
    (hu : ∀ a ∈ infos.map FieldInfo.key, a ∉ keysOf u)
    {p : Doc × Doc} (h : fieldsLoop ty v infos s u = .ok p) :
    p = (s ++ (infos.filter fun i =>
          !(i.key == "_id") && !(i.omitEmpty && isZero (fieldVal v i))).map
            fun i => (i.key, fieldVal v i),
       u ++ (infos.filter fun i =>
          !(i.key == "_id") && (i.omitEmpty && isZero (fieldVal v i))).map
            fun i => (i.key, GoVal.vIface none)) := by
  induction infos generalizing s u with
  | nil =>
    rw [fieldsLoop] at h
    cases h
    simp
  | cons info rest ih =>
    have hmk : (info :: rest).map FieldInfo.key = info.key :: rest.map FieldInfo.key := rfl
    rw [hmk] at hnd hs hu
    have hnd2 : (rest.map FieldInfo.key).Nodup := hnd.of_cons
    have hkey : info.key ∉ rest.map FieldInfo.key := (List.nodup_cons.mp hnd).1
    have hs2 : ∀ a ∈ rest.map FieldInfo.key, a ∉ keysOf s :=
      fun a ha => hs a (List.mem_cons_of_mem _ ha)
    have hu2 : ∀ a ∈ rest.map FieldInfo.key, a ∉ keysOf u :=
      fun a ha => hu a (List.mem_cons_of_mem _ ha)
    by_cases hid : info.key = "_id"
    · rw [fieldsLoop, if_pos (by simp [hid])] at h
      rw [List.filter_cons, if_neg (by simp [hid]),
        List.filter_cons, if_neg (by simp [hid])]
      exact ih s u hnd2 hs2 hu2 h
    · by_cases hz : (info.omitEmpty && isZero (fieldVal v info)) = true
      · have hins : insertDoc u info.key (GoVal.vIface none) =
            u ++ [(info.key, GoVal.vIface none)] :=
          insertDoc_of_not_mem _ (hu info.key (List.mem_cons_self _ _))
        rw [fieldsLoop, if_neg (by simp [hid]), if_pos hz, hins] at h
        rw [List.filter_cons, if_neg (by simp [hid, hz]),
          List.filter_cons, if_pos (by simp [hid, hz]),
          ih s (u ++ [(info.key, GoVal.vIface none)]) hnd2 hs2
            (fun a ha => by
              rw [keysOf_append]
              simp only [List.mem_append]
              rintro (h1 | h1)
              · exact hu2 a ha h1
              · have ha2 : a = info.key := by simpa [keysOf] using h1
                exact hkey (ha2 ▸ ha)) h,
          List.map_cons, List.append_assoc, List.singleton_append]
      · by_cases hro : fieldPathRO ty info = true
        · rw [fieldsLoop, if_neg (by simp [hid]), if_neg hz, if_pos hro] at h
          cases h
        · have hins : insertDoc s info.key (fieldVal v info) =
              s ++ [(info.key, fieldVal v info)] :=
            insertDoc_of_not_mem _ (hs info.key (List.mem_cons_self _ _))
          rw [fieldsLoop, if_neg (by simp [hid]), if_neg hz, if_neg hro, hins] at h
          rw [List.filter_cons, if_pos (by simp [hid, Bool.eq_false_iff.mpr hz]),
            List.filter_cons, if_neg (by simp [Bool.eq_false_iff.mpr hz]),
            ih (s ++ [(info.key, fieldVal v info)]) u hnd2
              (fun a ha => by
                rw [keysOf_append]
                simp only [List.mem_append]
                rintro (h1 | h1)
                · exact hs2 a ha h1
                · have ha2 : a = info.key := by simpa [keysOf] using h1
                  exact hkey (ha2 ▸ ha))
              hu2 h,
            List.map_cons, List.append_assoc, List.singleton_append]

theorem fieldsLoop_no_id (ty : GoType) (v : GoVal) (infos : List FieldInfo) (s u : Doc)
    (hs : "_id" ∉ keysOf s) (hu : "_id" ∉ keysOf u)
    {p : Doc × Doc} (h : fieldsLoop ty v infos s u = .ok p) :
    "_id" ∉ keysOf p.1 ∧ "_id" ∉ keysOf p.2 := by
  induction infos generalizing s u with
  | nil =>
    rw [fieldsLoop] at h
    cases h
    exact ⟨hs, hu⟩
  | cons info rest ih =>
    by_cases hid : info.key = "_id"
    · rw [fieldsLoop, if_pos (by simp [hid])] at h
      exact ih s u hs hu h
    · by_cases hz : (info.omitEmpty && isZero (fieldVal v info)) = true
      · rw [fieldsLoop, if_neg (by simp [hid]), if_pos hz] at h
        refine ih s (insertDoc u info.key (GoVal.vIface none)) hs ?_ h
        intro hmem
        rcases mem_keysOf_insertDoc.mp hmem with h1 | h1
        · exact hu h1
        · exact hid h1.symm
      · by_cases hro : fieldPathRO ty info = true
        · rw [fieldsLoop, if_neg (by simp [hid]), if_neg hz, if_pos hro] at h
          cases h
        · rw [fieldsLoop, if_neg (by simp [hid]), if_neg hz, if_neg hro] at h
          refine ih (insertDoc s info.key (fieldVal v info)) u ?_ hu h
          intro hmem
          rcases mem_keysOf_insertDoc.mp hmem with h1 | h1
          · exact hs h1
          · exact hid h1.symm

theorem keysOf_map_key {α : Type} (l : List FieldInfo) (f : FieldInfo → α) :
    keysOf (l.map fun j => (j.key, f j)) = l.map FieldInfo.key := by
  simp [keysOf, List.map_map, Function.comp]

theorem mem_keys_filterMap {l : List FieldInfo} {p : FieldInfo → Bool}
    {f : FieldInfo → GoVal} {a : String} :
    a ∈ keysOf ((l.filter p).map fun j => (j.key, f j)) ↔
      ∃ i ∈ l, p i = true ∧ i.key = a := by
  rw [keysOf_map_key]
  simp only [List.mem_map, List.mem_filter]
  constructor
  · rintro ⟨i, ⟨hi, hp⟩, rfl⟩
    exact ⟨i, hi, hp, rfl⟩
  · rintro ⟨i, hi, hp, rfl⟩
    exact ⟨i, ⟨hi, hp⟩, rfl⟩

theorem lookup_filterMap_self {l : List FieldInfo} (p : FieldInfo → Bool)
    (f : FieldInfo → GoVal) (hnd : (l.map FieldInfo.key).Nodup)
    {i : FieldInfo} (hi : i ∈ l) (hp : p i = true) :
    ((l.filter p).map fun j => (j.key, f j)).lookup i.key = some (f i) := by
  induction l with
  | nil => cases hi
  | cons j rest ih =>
    have hmk : (j :: rest).map FieldInfo.key = j.key :: rest.map FieldInfo.key := rfl
    rw [hmk] at hnd
    have hnd2 : (rest.map FieldInfo.key).Nodup := hnd.of_cons
    have hjk : j.key ∉ rest.map FieldInfo.key := (List.nodup_cons.mp hnd).1
    rcases List.mem_cons.mp hi with rfl | hi2
    · rw [List.filter_cons, if_pos hp]
      simp [List.lookup_cons]
    · have hne : i.key ≠ j.key := by
        intro he
        exact hjk (he ▸ List.mem_map_of_mem FieldInfo.key hi2)
      rw [List.filter_cons]
      by_cases hpj : p j = true
      · rw [if_pos hpj]
        simp only [List.map_cons, List.lookup_cons, beq_false_of_ne hne]
        exact ih hnd2 hi2
      · rw [if_neg hpj]
        exact ih hnd2 hi2

/-! ## Invariants of descriptor construction -/

theorem keysOf_parallel (fl : List FieldInfo) :
    keysOf (fl.map fun i => (i.key, i)) = fl.map FieldInfo.key :=
  keysOf_map_key fl id

theorem spliceLoop_inv (n : String) (i : Nat) (lst : List FieldInfo) :
    ∀ fm fl fm2 fl2, fm = fl.map (fun j => (j.key, j)) →
    (fl.map FieldInfo.key).Nodup →
    spliceLoop n i lst fm fl = .ok (fm2, fl2) →
    fm2 = fl2.map (fun j => (j.key, j)) ∧ (fl2.map FieldInfo.key).Nodup := by
  induction lst with
  | nil =>
    intro fm fl fm2 fl2 hpar hnd h
    simp only [spliceLoop] at h
    cases h
    exact ⟨hpar, hnd⟩
  | cons finfo rest ih =>
    intro fm fl fm2 fl2 hpar hnd h
    simp only [spliceLoop] at h
    split at h
    · cases h
    · have hfresh : finfo.key ∉ fl.map FieldInfo.key := by
        have hnone : fm.lookup finfo.key = none := by
          cases hlk : fm.lookup finfo.key with
          | none => rfl
          | some b =>
            rename_i hcond
            rw [hlk] at hcond
            simp at hcond
        rw [hpar] at hnone
        rw [← keysOf_parallel fl]
        exact (lookup_eq_none_iff _ _).mp hnone
      apply ih _ _ _ _ _ _ h
      · rw [hpar]
        simp
      · simp only [List.map_append, List.map_cons, List.map_nil]
        rw [List.nodup_append]
        refine ⟨hnd, List.nodup_singleton _, ?_⟩
        intro a ha hb
        simp only [List.mem_singleton] at hb
        subst hb
        exact hfresh ha

theorem mapInlineStep_inv {sname : String} {keyIsString : Bool} {i : Nat}
    {fm : List (String × FieldInfo)} {fl : List FieldInfo} {im : Int}
    {fm2 : List (String × FieldInfo)} {fl2 : List FieldInfo} {im2 : Int}
    (hpar : fm = fl.map fun j => (j.key, j))
    (hnd : (fl.map FieldInfo.key).Nodup)
    (h : mapInlineStep sname keyIsString i fm fl im = .ok (fm2, fl2, im2)) :
    fm2 = fl2.map (fun j => (j.key, j)) ∧ (fl2.map FieldInfo.key).Nodup := by
  simp only [mapInlineStep] at h
  split at h
  · cases h
  · split at h
    · cases h
    · cases h
      exact ⟨hpar, hnd⟩

theorem directFieldStep_inv {sname key : String} {flags : TagFlags} {i : Nat}
    {fm : List (String × FieldInfo)} {fl : List FieldInfo} {im : Int}
    {fm2 : List (String × FieldInfo)} {fl2 : List FieldInfo} {im2 : Int}
    (hpar : fm = fl.map fun j => (j.key, j))
    (hnd : (fl.map FieldInfo.key).Nodup)
    (h : directFieldStep sname key flags i fm fl im = .ok (fm2, fl2, im2)) :
    fm2 = fl2.map (fun j => (j.key, j)) ∧ (fl2.map FieldInfo.key).Nodup := by
  simp only [directFieldStep] at h
  split at h
  · cases h
  · rename_i hns
    cases h
    have hfresh : key ∉ fl.map FieldInfo.key := by
      have hnone : fm.lookup key = none := by
        cases hlk : fm.lookup key with
        | none => rfl
        | some b => rw [hlk] at hns; simp at hns
      rw [hpar] at hnone
      rw [← keysOf_parallel fl]
      exact (lookup_eq_none_iff _ _).mp hnone
    constructor
    · rw [hpar]
      simp
    · simp only [List.map_append, List.map_cons, List.map_nil]
      rw [List.nodup_append]
      refine ⟨hnd, List.nodup_singleton _, ?_⟩
      intro a ha hb
      simp only [List.mem_singleton] at hb
      subst hb
      exact hfresh ha

theorem structInfoStep_inv {sname : String} {f : GoField} {i : Nat}
    {fm : List (String × FieldInfo)} {fl : List FieldInfo} {im : Int}
    {fm2 : List (String × FieldInfo)} {fl2 : List FieldInfo} {im2 : Int}
    (hpar : fm = fl.map fun j => (j.key, j))
    (hnd : (fl.map FieldInfo.key).Nodup)
    (h : structInfoStep sname f i fm fl im = .ok (fm2, fl2, im2)) :
    fm2 = fl2.map (fun j => (j.key, j)) ∧ (fl2.map FieldInfo.key).Nodup := by
  obtain ⟨fnam, ftg, fpkg, fan, ftyp⟩ := f
  cases ftyp <;> rw [structInfoStep] at h <;> repeat' split at h
  all_goals try cases h
  all_goals first
    | exact ⟨hpar, hnd⟩
    | exact mapInlineStep_inv hpar hnd h
    | exact directFieldStep_inv hpar hnd h
    | exact spliceLoop_inv _ _ _ _ _ _ _ hpar hnd (by assumption)
    | simp

theorem structInfoLoop_inv (sname : String) (flds : List GoField) :
    ∀ i fm fl im sinfo, fm = fl.map (fun j => (j.key, j)) →
    (fl.map FieldInfo.key).Nodup →
    structInfoLoop sname flds i fm fl im = .ok sinfo →
    sinfo.fieldsMap = sinfo.fieldsList.map (fun j => (j.key, j)) ∧
      (sinfo.fieldsList.map FieldInfo.key).Nodup := by
  induction flds with
  | nil =>
    intro i fm fl im sinfo hpar hnd h
    rw [structInfoLoop] at h
    cases h
    exact ⟨hpar, hnd⟩
  | cons f rest ih =>
    intro i fm fl im sinfo hpar hnd h
    rw [structInfoLoop] at h
    split at h
    · cases h
    · cases h
    · rename_i st hst
      obtain ⟨hp2, hn2⟩ := structInfoStep_inv hpar hnd hst
      exact ih _ _ _ _ _ hp2 hn2 h

/-- On success, `getStructInfo`'s `FieldsMap` is exactly `FieldsList`
indexed by key, and the keys of `FieldsList` are pairwise distinct. -/
theorem getStructInfo_inv {st : GoType} {sinfo : StructInfo}
    (h : getStructInfo st = .ok sinfo) :
    sinfo.fieldsMap = sinfo.fieldsList.map (fun j => (j.key, j)) ∧
      (sinfo.fieldsList.map FieldInfo.key).Nodup := by
  cases st <;> rw [getStructInfo] at h <;> try cases h
  case tStruct sname flds =>
    exact structInfoLoop_inv sname flds 0 [] [] (-1) sinfo rfl List.nodup_nil h

theorem getStructInfo_ok_lookup_none {st : GoType} {sinfo : StructInfo}
    (h : getStructInfo st = .ok sinfo) (a : String) :
    sinfo.fieldsMap.lookup a = none ↔ a ∉ sinfo.fieldsList.map FieldInfo.key := by
  rw [(getStructInfo_inv h).1, lookup_eq_none_iff, keysOf_parallel]

/-! ## Characterization of `structAsUpdate` on success -/

theorem inlineSet_ok {sinfo : StructInfo} {v : GoVal} {set0 : Doc}
    (hnd : (keysOf (inlineEntries sinfo v)).Nodup)
    (h : inlineSet sinfo v = .ok set0) :
    set0 = (inlineEntries sinfo v).filter (fun p => !(p.1 == "_id")) ∧
      ∀ a ∈ keysOf (inlineEntries sinfo v), sinfo.fieldsMap.lookup a = none := by
  by_cases him : sinfo.inlineMap ≥ 0
  · rw [inlineSet, if_pos him] at h
    split at h
    · rename_i ks entries heq
      have hie : inlineEntries sinfo v = entries := by
        rw [inlineEntries, if_pos him, heq]
      rw [hie] at hnd ⊢
      by_cases hlen : entries.length ≠ 0
      · rw [if_pos hlen] at h
        exact ⟨inlineLoop_ok_eq hnd (by simp [keysOf]) h, inlineLoop_ok_fresh h⟩
      · rw [if_neg hlen] at h
        cases h
        push_neg at hlen
        have hz : entries = [] := List.length_eq_zero.mp hlen
        subst hz
        exact ⟨rfl, by simp [keysOf]⟩
    · cases h
  · rw [inlineSet, if_neg him] at h
    cases h
    have hie : inlineEntries sinfo v = [] := by rw [inlineEntries, if_neg him]
    rw [hie]
    exact ⟨rfl, by simp [keysOf]⟩

theorem structAsUpdate_ok {ty : GoType} {vals : List GoVal} {u : Update}
    {sinfo : StructInfo}
    (hsi : getStructInfo ty = .ok sinfo)
    (hnd : (keysOf (inlineEntries sinfo (.vStruct ty vals))).Nodup)
    (h : structAsUpdate (.vStruct ty vals) = .ret u none) :
    u.set = some ((inlineEntries sinfo (.vStruct ty vals)).filter
        (fun p => !(p.1 == "_id")) ++
      (sinfo.fieldsList.filter fun j => !(j.key == "_id") &&
          !(j.omitEmpty && isZero (fieldVal (.vStruct ty vals) j))).map
        fun j => (j.key, fieldVal (.vStruct ty vals) j)) ∧
    u.unset = some ((sinfo.fieldsList.filter fun j => !(j.key == "_id") &&
          (j.omitEmpty && isZero (fieldVal (.vStruct ty vals) j))).map
        fun j => (j.key, GoVal.vIface none)) ∧
    ∀ a ∈ keysOf (inlineEntries sinfo (.vStruct ty vals)),
      a ∉ sinfo.fieldsList.map FieldInfo.key := by
  obtain ⟨hpar, hndf⟩ := getStructInfo_inv hsi
  simp only [structAsUpdate, hsi] at h
  cases hs0 : inlineSet sinfo (.vStruct ty vals) with
  | fatal m => rw [hs0] at h; cases h
  | err e => rw [hs0] at h; cases h
  | ok set0 =>
    rw [hs0] at h
    obtain ⟨hset0, hfresh⟩ := inlineSet_ok hnd hs0
    have hfresh2 : ∀ a ∈ keysOf (inlineEntries sinfo (.vStruct ty vals)),
        a ∉ sinfo.fieldsList.map FieldInfo.key :=
      fun a ha => (getStructInfo_ok_lookup_none hsi a).mp (hfresh a ha)
    have hsl : ∀ a ∈ sinfo.fieldsList.map FieldInfo.key, a ∉ keysOf set0 := by
      intro a ha hmem
      rw [hset0] at hmem
      have hin : a ∈ keysOf (inlineEntries sinfo (.vStruct ty vals)) := by
        rcases mem_keysOf.mp hmem with ⟨x, hx⟩
        exact mem_keysOf.mpr ⟨x, (List.mem_filter.mp hx).1⟩
      exact hfresh2 a hin ha
    have h3 : (match fieldsLoop ty (GoVal.vStruct ty vals) sinfo.fieldsList set0 [] with
      | Except.error m => UpdResult.fatal m
      | Except.ok su =>
        UpdResult.ret ⟨some su.1, some su.2⟩ none) = UpdResult.ret u none := h
    cases hfl : fieldsLoop ty (.vStruct ty vals) sinfo.fieldsList set0 [] with
    | error m => rw [hfl] at h3; cases h3
    | ok su =>
      rw [hfl] at h3
      cases h3
      rw [fieldsLoop_eq ty (.vStruct ty vals) sinfo.fieldsList set0 [] hndf hsl
        (by simp [keysOf]) hfl]
      refine ⟨by simp [hset0], by simp, hfresh2⟩

/-! ## Dispatch equations and path lemmas -/

theorem asUpdate_vStruct (ty : GoType) (vals : List GoVal) :
    AsUpdate (.vStruct ty vals) = structAsUpdate (.vStruct ty vals) := rfl

theorem asUpdate_vMap (ks : Bool) (entries : Doc) :
    AsUpdate (.vMap ks entries) = mapAsUpdate ks entries := rfl

theorem inlineSet_no_id {sinfo : StructInfo} {v : GoVal} {set0 : Doc}
    (h : inlineSet sinfo v = .ok set0) : "_id" ∉ keysOf set0 := by
  by_cases him : sinfo.inlineMap ≥ 0
  · rw [inlineSet, if_pos him] at h
    split at h
    · split at h
      · exact inlineLoop_ok_no_id (by simp [keysOf]) h
      · cases h
        simp [keysOf]
    · cases h
  · rw [inlineSet, if_neg him] at h
    cases h
    simp [keysOf]

theorem structAsUpdate_no_id {x : GoVal} {u : Update}
    (h : structAsUpdate x = .ret u none) :
    "_id" ∉ docKeys u.set ∧ "_id" ∉ docKeys u.unset := by
  cases x
  case vStruct ty vals =>
    simp only [structAsUpdate] at h
    split at h
    · cases h
    · cases h
    · rename_i sinfo hsi
      split at h
      · cases h
      · cases h
      · rename_i set0 hs0
        split at h
        · cases h
        · rename_i su hfl
          cases h
          exact fieldsLoop_no_id ty (.vStruct ty vals) sinfo.fieldsList set0 []
            (inlineSet_no_id hs0) (by simp [keysOf]) hfl
  all_goals (rw [structAsUpdate] at h; try cases h)
  all_goals simp

theorem mapAsUpdate_no_id {ks : Bool} {entries : Doc} {u : Update}
    (h : mapAsUpdate ks entries = .ret u none) :
    "_id" ∉ docKeys u.set ∧ "_id" ∉ docKeys u.unset := by
  rw [mapAsUpdate] at h
  split at h
  · cases h
    exact ⟨mapLoop_no_id entries [] (by simp [keysOf]), by simp [docKeys, keysOf]⟩
  · cases h

theorem nonStructAsUpdate_no_id {x : GoVal} {u : Update}
    (h : nonStructAsUpdate x = .ret u none) :
    "_id" ∉ docKeys u.set ∧ "_id" ∉ docKeys u.unset := by
  rw [nonStructAsUpdate] at h
  split at h
  · cases h
  · exact mapAsUpdate_no_id h

theorem asUpdate_no_id {x : GoVal} {u : Update}
    (h : AsUpdate x = .ret u none) :
    "_id" ∉ docKeys u.set ∧ "_id" ∉ docKeys u.unset := by
  rw [AsUpdate] at h
  split at h
  · cases h
  · cases h
  · split at h
    · split at h
      · exact nonStructAsUpdate_no_id h
      · cases h
    · exact mapAsUpdate_no_id h
    · exact structAsUpdate_no_id h
    · exact nonStructAsUpdate_no_id h

theorem mapAsUpdate_err_zero {ks : Bool} {entries : Doc} {u : Update} {e : String}
    (h : mapAsUpdate ks entries = .ret u (some e)) : u = Update.zero := by
  rw [mapAsUpdate] at h
  split at h
  · cases h
  · cases h
    rfl

theorem nonStructAsUpdate_err_zero {x : GoVal} {u : Update} {e : String}
    (h : nonStructAsUpdate x = .ret u (some e)) : u = Update.zero := by
  rw [nonStructAsUpdate] at h
  split at h
  · cases h
    rfl
  · exact mapAsUpdate_err_zero h

theorem structAsUpdate_err_zero {x : GoVal} {u : Update} {e : String}
    (h : structAsUpdate x = .ret u (some e)) : u = Update.zero := by
  cases x
  case vStruct ty vals =>
    simp only [structAsUpdate] at h
    split at h
    · cases h
    · cases h
      rfl
    · split at h
      · cases h
      · cases h
        rfl
      · split at h
        · cases h
        · cases h
  all_goals (rw [structAsUpdate] at h; try cases h)
  all_goals simp

theorem asUpdate_err_zero {x : GoVal} {u : Update} {e : String}
    (h : AsUpdate x = .ret u (some e)) : u = Update.zero := by
  rw [AsUpdate] at h
  split at h
  · cases h
  · cases h
    rfl
  · split at h
    · split at h
      · exact nonStructAsUpdate_err_zero h
      · cases h
    · exact mapAsUpdate_err_zero h
    · exact structAsUpdate_err_zero h
    · exact nonStructAsUpdate_err_zero h

/-! ## Success of `mapAsUpdate` on string-keyed maps -/

theorem mapAsUpdate_string (entries : Doc) (hnd : (keysOf entries).Nodup) :
    mapAsUpdate true entries =
      .ret ⟨some (entries.filter fun p => !(p.1 == "_id")), some []⟩ none := by
  rw [mapAsUpdate, if_pos rfl, mapLoop_eq entries [] hnd (by simp [keysOf])]
  rfl

theorem lookup_filter_mem {m : Doc} {p : String × GoVal → Bool} {k : String}
    {x : GoVal} (hnd : (keysOf m).Nodup) (hmem : (k, x) ∈ m)
    (hp : p (k, x) = true) : (m.filter p).lookup k = some x := by
  induction m with
  | nil => cases hmem
  | cons q rest ih =>
    obtain ⟨k1, x1⟩ := q
    have hkeys : keysOf ((k1, x1) :: rest) = k1 :: keysOf rest := rfl
    rw [hkeys] at hnd
    have hnd2 : (keysOf rest).Nodup := hnd.of_cons
    have hk1 : k1 ∉ keysOf rest := (List.nodup_cons.mp hnd).1
    rcases List.mem_cons.mp hmem with heq | hmem2
    · obtain ⟨rfl, rfl⟩ := Prod.mk.injEq .. ▸ heq
      rw [List.filter_cons, if_pos hp]
      simp [List.lookup_cons]
    · have hne : k ≠ k1 := by
        intro he
        subst he
        exact hk1 (mem_keysOf.mpr ⟨x, hmem2⟩)
      rw [List.filter_cons]
      by_cases hq : p (k1, x1) = true
      · rw [if_pos hq, List.lookup_cons]
        simp only [beq_false_of_ne hne]
        exact ih hnd2 hmem2
      · rw [if_neg hq]
        exact ih hnd2 hmem2

theorem mem_keysOf_filter {m : Doc} {p : String × GoVal → Bool} {a : String} :
    a ∈ keysOf (m.filter p) ↔ ∃ x, (a, x) ∈ m ∧ p (a, x) = true := by
  rw [mem_keysOf]
  constructor
  · rintro ⟨x, hx⟩
    exact ⟨x, (List.mem_filter.mp hx).1, (List.mem_filter.mp hx).2⟩
  · rintro ⟨x, hx, hp⟩
    exact ⟨x, List.mem_filter.mpr ⟨hx, hp⟩⟩

/-! ## The abort-free fragment (safety predicates) -/

/-- All flags of a tag are among the three recognized ones: exactly the
condition under which the flag loop does not panic. -/
def flagsOk (tag : String) : Bool :=
  match splitComma tag with
  | [] => true
  | [_] => true
  | _ :: rest => rest.all fun f => f == "omitempty" || f == "minsize" || f == "inline"

/-- The tag carries the `inline` flag. -/
def tagInline (tag : String) : Bool :=
  match splitComma tag with
  | [] => false
  | [_] => false
  | _ :: rest => rest.any fun f => f == "inline"

mutual

def fieldsSafe : List GoField → Bool
  | [] => true
  | f :: rest => fieldSafe f && fieldsSafe rest

def fieldSafe : GoField → Bool
  | .mk _ ftg fpkg fan ftyp =>
    if fpkg ≠ "" && !fan then true
    else if ftg == "-" then true
    else
      flagsOk ftg &&
        (if tagInline ftg then
          (match ftyp with
           | .tMap _ => true
           | .tStruct _ f2 => fieldsSafe f2
           | _ => false)
         else true)

end

/-- C3: for every string-keyed mapping M (Go map keys are distinct),
`AsUpdate(M)` succeeds; `Set` equals M with the entry for the identity key
`_id` removed, all other entries keeping their values; `Unset` is the
(initialized) empty mapping. -/
theorem c3_map_as_update (entries : Doc) (hnd : (keysOf entries).Nodup) :
    AsUpdate (.vMap true entries) =
      .ret ⟨some (entries.filter fun p => !(p.1 == "_id")), some []⟩ none := by
  rw [asUpdate_vMap, mapAsUpdate_string entries hnd]

theorem c3_witness :
    AsUpdate (.vMap true
        [("A", .vString "b"), ("_id", .vString "x"), ("C", .vInt 213)]) =
      .ret ⟨some ([("A", GoVal.vString "b"), ("_id", GoVal.vString "x"),
          ("C", GoVal.vInt 213)].filter fun p => !(p.1 == "_id")),
        some []⟩ none :=
  c3_map_as_update _ (by decide)

/-- C4: on every input on which `AsUpdate` succeeds — record, mapping, or
opaque pre-encoded document — the reserved identity key `_id` appears in
neither the returned `Set` nor the returned `Unset`. -/
theorem c4_id_never_present : ∀ (x : GoVal) (u : Update),
    AsUpdate x = .ret u none →
    "_id" ∉ docKeys u.set ∧ "_id" ∉ docKeys u.unset :=
  fun _ _ h => asUpdate_no_id h

theorem c4_witness :
    "_id" ∉ docKeys (Update.mk (some [("a", GoVal.vString "goodbye")]) (some [])).set ∧
    "_id" ∉ docKeys (Update.mk (some [("a", GoVal.vString "goodbye")]) (some [])).unset :=
  c4_id_never_present
    (.vMap true [("_id", .vString "hello"), ("a", .vString "goodbye")])
    ⟨some [("a", .vString "goodbye")], some []⟩ rfl

/-- C5: the resolution phase follows `GetBSON` hooks (continuing from the
hook's result, so chains are followed), wraps and immediately propagates a
hook error under the "GetBSON failed: " prefix, dereferences pointers, and
stops on any value doing neither; every resolution error makes `AsUpdate`
return it with the zero `Update`.  A nil receiver at the top of the chain
is the hook-on-nil case, modelled by `vGetter` with an ok sentinel result
(see `resolve`), covered by the chain equation. -/
theorem c5_resolution :
    (∀ e, resolve (.vGetter (.error e)) = .err ("GetBSON failed: " ++ e)) ∧
    (∀ v, resolve (.vGetter (.ok v)) = resolve v) ∧
    (∀ v, resolve (.vPtr (some v)) = resolve v) ∧
    (∀ v, isTerminal v = true → resolve v = .ok v) ∧
    (∀ x e, resolve x = .err e → AsUpdate x = .ret Update.zero (some e)) := by
  refine ⟨fun e => rfl, fun v => rfl, fun v => rfl, ?_, ?_⟩
  · intro v hv
    cases v <;> first | rfl | simp [isTerminal] at hv
  · intro x e h
    simp only [AsUpdate, h]

theorem c5_witness :
    resolve (.vInt 3) = .ok (.vInt 3) ∧
    AsUpdate (.vGetter (.error "some error")) =
      .ret Update.zero (some ("GetBSON failed: " ++ "some error")) :=
  ⟨c5_resolution.2.2.2.1 (.vInt 3) rfl,
   c5_resolution.2.2.2.2 (.vGetter (.error "some error")) _ rfl⟩

/-- C8: the zero-value classifier on a nested record value (the date/time
type is the separate `vTime` case) is true iff every externally visible or
anonymous field is recursively zero — private non-anonymous fields are
ignored. -/
theorem c8_is_zero_struct_iff (n : String) (tfs : List GoField) (vs : List GoVal) :
    isZero (.vStruct (.tStruct n tfs) vs) = true ↔
      ∀ p ∈ tfs.zip vs, (p.1.fpkgPath = "" ∨ p.1.fanon = true) →
        isZero p.2 = true := by
  have key : ∀ (tfs2 : List GoField) (vs2 : List GoVal),
      fieldsZero tfs2 vs2 = true ↔
        ∀ p ∈ tfs2.zip vs2, (p.1.fpkgPath = "" ∨ p.1.fanon = true) →
          isZero p.2 = true := by
    intro tfs2
    induction tfs2 with
    | nil => simp [fieldsZero]
    | cons tf tfs3 ih =>
      intro vs2
      cases vs2 with
      | nil => simp [fieldsZero]
      | cons v vs3 =>
        have hfz : fieldsZero (tf :: tfs3) (v :: vs3) =
            ((if tf.fpkgPath ≠ "" && !tf.fanon then true else isZero v) &&
              fieldsZero tfs3 vs3) := rfl
        rw [hfz, Bool.and_eq_true, ih vs3]
        constructor
        · rintro ⟨h1, h2⟩ p hmem hvis
          rcases List.mem_cons.mp hmem with hpe | hmem2
          · have hcond : ¬((tf.fpkgPath ≠ "" && !tf.fanon) = true) := by
              have hvis2 := hpe ▸ hvis
              rcases hvis2 with hv1 | hv1 <;> simp [hv1]
            rw [if_neg hcond] at h1
            rw [hpe]
            exact h1
          · exact h2 p hmem2 hvis
        · intro hall
          constructor
          · by_cases hcond : (tf.fpkgPath ≠ "" && !tf.fanon) = true
            · rw [if_pos hcond]
            · rw [if_neg hcond]
              apply hall (tf, v) (List.mem_cons_self _ _)
              simp only [Bool.and_eq_true, decide_eq_true_eq, Bool.not_eq_true,
                not_and] at hcond
              by_cases hp : tf.fpkgPath = ""
              · exact Or.inl hp
              · cases ha : tf.fanon
                · exact absurd (hcond hp) (by simp [ha])
                · exact Or.inr rfl
          · intro p hmem hvis
            exact hall p (List.mem_cons_of_mem _ hmem) hvis
  exact key tfs vs

theorem c8_witness :
    isZero (.vStruct (.tStruct "T"
        [.mk "A" "" "" false .tInt, .mk "b" "" "pkg" false .tInt])
      [.vInt 0, .vInt 7]) = true ↔
      ∀ p ∈ [GoField.mk "A" "" "" false .tInt,
          GoField.mk "b" "" "pkg" false .tInt].zip
            [GoVal.vInt 0, GoVal.vInt 7],
        (p.1.fpkgPath = "" ∨ p.1.fanon = true) → isZero p.2 = true :=
  c8_is_zero_struct_iff "T" _ _

/-- C10: whenever `AsUpdate` (or any of the update builders it dispatches
to) returns a non-nil error, the accompanying `Update` is exactly the zero
`Update`, whose `Set` and `Unset` maps are both nil. -/
theorem c10_error_returns_zero_update :
    (∀ x u e, AsUpdate x = .ret u (some e) → u = Update.zero) ∧
    (∀ x u e, structAsUpdate x = .ret u (some e) → u = Update.zero) ∧
    (∀ x u e, nonStructAsUpdate x = .ret u (some e) → u = Update.zero) ∧
    (∀ ks entries u e, mapAsUpdate ks entries = .ret u (some e) → u = Update.zero) :=
  ⟨fun _ _ _ h => asUpdate_err_zero h, fun _ _ _ h => structAsUpdate_err_zero h,
   fun _ _ _ h => nonStructAsUpdate_err_zero h,
   fun _ _ _ _ h => mapAsUpdate_err_zero h⟩

theorem c10_witness : Update.zero = Update.zero ∧ Update.zero.set = none ∧
    Update.zero.unset = none :=
  ⟨c10_error_returns_zero_update.1 (.vInt 34) Update.zero
    ("cannot marshal: Can\u0027t marshal int as a BSON document") rfl, rfl, rfl⟩

/-- The `inlineMap` record type of the repository's tests: a declared
`int` field `A` and an inline string-keyed map field `M`. -/
def inlineMapTy : GoType :=
  .tStruct "mgoutil_test.inlineMap"
    [.mk "A" "" "" false .tInt, .mk "M" ",inline" "" false (.tMap true)]

/-- The test value `inlineMap{A: 1, M: {"b": 2}}`. -/
def inlineMapVal : GoVal :=
  .vStruct inlineMapTy [.vInt 1, .vMap true [("b", .vInt 2)]]

/-- C1 (counterexample): on a record with a non-empty inline mapping
field, `AsUpdate` succeeds with the inline entry key `b` in `Set`, yet
`b` is not among the document keys implied by the structure descriptor
(which are exactly `["a"]`); so the union of the `Set` and `Unset` key
sets is strictly larger than the descriptor's keys minus `_id`. -/
theorem c1_counterexample :
    AsUpdate inlineMapVal =
      .ret ⟨some [("b", .vInt 2), ("a", .vInt 1)], some []⟩ none ∧
    (∃ sinfo, getStructInfo inlineMapTy = .ok sinfo ∧
      sinfo.fieldsList.map FieldInfo.key = ["a"]) ∧
    "b" ∈ docKeys (some [("b", GoVal.vInt 2), ("a", GoVal.vInt 1)]) ∧
    "b" ∉ (["a"] : List String) ∧ "b" ≠ "_id" :=
  ⟨rfl,
   ⟨⟨[("a", ⟨"a", 0, false, false, none⟩)], [⟨"a", 0, false, false, none⟩], 1⟩,
     rfl, rfl⟩,
   by simp [docKeys], by simp, by simp⟩

theorem key_inj_of_nodup {l : List FieldInfo}
    (hnd : (l.map FieldInfo.key).Nodup) {a b : FieldInfo}
    (ha : a ∈ l) (hb : b ∈ l) (hk : a.key = b.key) : a = b :=
  List.inj_on_of_nodup_map hnd ha hb hk

/-- C1 (amended): for every record value on which `AsUpdate` succeeds
(with, as Go map semantics guarantee, distinct keys in its inline mapping
field), both mappings are initialized (non-nil) even when empty, their key
sets are disjoint, and their union equals the descriptor's document keys
together with the inline mapping field's entry keys, minus the identity
key `_id`. -/
theorem c1_amended : ∀ (ty : GoType) (vals : List GoVal) (u : Update)
    (sinfo : StructInfo),
    AsUpdate (.vStruct ty vals) = .ret u none →
    getStructInfo ty = .ok sinfo →
    (keysOf (inlineEntries sinfo (.vStruct ty vals))).Nodup →
    ∃ s uns, u.set = some s ∧ u.unset = some uns ∧
      (∀ k, k ∈ keysOf s → k ∉ keysOf uns) ∧
      (∀ k, (k ∈ keysOf s ∨ k ∈ keysOf uns) ↔
        (k ≠ "_id" ∧ (k ∈ sinfo.fieldsList.map FieldInfo.key ∨
          k ∈ keysOf (inlineEntries sinfo (.vStruct ty vals))))) := by
  intro ty vals u sinfo hA hsi hnd
  rw [asUpdate_vStruct] at hA
  obtain ⟨hset, hunset, hfresh⟩ := structAsUpdate_ok hsi hnd hA
  obtain ⟨hpar, hndf⟩ := getStructInfo_inv hsi
  refine ⟨_, _, hset, hunset, ?_, ?_⟩
  · -- disjointness
    intro k hks hku
    rw [keysOf_append, List.mem_append] at hks
    rw [mem_keys_filterMap] at hku
    obtain ⟨j2, hj2, hp2, hk2⟩ := hku
    rcases hks with hinl | hsadd
    · rw [mem_keysOf_filter] at hinl
      obtain ⟨x, hx, hpx⟩ := hinl
      exact hfresh k (mem_keysOf.mpr ⟨x, hx⟩) (hk2 ▸ List.mem_map_of_mem FieldInfo.key hj2)
    · rw [mem_keys_filterMap] at hsadd
      obtain ⟨j1, hj1, hp1, hk1⟩ := hsadd
      have hj12 : j1 = j2 := key_inj_of_nodup hndf hj1 hj2 (hk1.trans hk2.symm)
      subst hj12
      rw [Bool.and_eq_true] at hp1 hp2
      have hc := hp1.2
      rw [hp2.2] at hc
      simp at hc
  · -- union characterization
    intro k
    rw [keysOf_append, List.mem_append, mem_keysOf_filter, mem_keys_filterMap,
      mem_keys_filterMap]
    constructor
    · rintro ((⟨x, hx, hpx⟩ | ⟨j, hj, hp, hk⟩) | ⟨j, hj, hp, hk⟩)
      · refine ⟨by simpa using hpx, Or.inr (mem_keysOf.mpr ⟨x, hx⟩)⟩
      · rw [Bool.and_eq_true] at hp
        refine ⟨?_, Or.inl (hk ▸ List.mem_map_of_mem FieldInfo.key hj)⟩
        have := hp.1
        rw [← hk]
        simpa using this
      · rw [Bool.and_eq_true] at hp
        refine ⟨?_, Or.inl (hk ▸ List.mem_map_of_mem FieldInfo.key hj)⟩
        have := hp.1
        rw [← hk]
        simpa using this
    · rintro ⟨hkid, hfl | hinl⟩
      · rw [List.mem_map] at hfl
        obtain ⟨j, hj, hk⟩ := hfl
        by_cases hz : (j.omitEmpty && isZero (fieldVal (.vStruct ty vals) j)) = true
        · refine Or.inr ⟨j, hj, ?_, hk⟩
          rw [Bool.and_eq_true, hz]
          exact ⟨by simp [hk, hkid], rfl⟩
        · refine Or.inl (Or.inr ⟨j, hj, ?_, hk⟩)
          rw [Bool.and_eq_true]
          exact ⟨by simp [hk, hkid], by simp [Bool.eq_false_iff.mpr hz]⟩
      · rw [mem_keysOf] at hinl
        obtain ⟨x, hx⟩ := hinl
        exact Or.inl (Or.inl ⟨x, hx, by simpa using hkid⟩)

theorem c1_witness :
    ∃ s uns,
      (Update.mk (some [("y", GoVal.vString "hello")])
        (some [("x", GoVal.vIface none)])).set = some s ∧
      (Update.mk (some [("y", GoVal.vString "hello")])
        (some [("x", GoVal.vIface none)])).unset = some uns ∧
      (∀ k, k ∈ keysOf s → k ∉ keysOf uns) ∧
      (∀ k, (k ∈ keysOf s ∨ k ∈ keysOf uns) ↔
        (k ≠ "_id" ∧ (k ∈ ([⟨"x", 0, true, false, none⟩,
            ⟨"y", 1, false, false, none⟩] : List FieldInfo).map FieldInfo.key ∨
          k ∈ keysOf (inlineEntries
            ⟨[("x", ⟨"x", 0, true, false, none⟩), ("y", ⟨"y", 1, false, false, none⟩)],
             [⟨"x", 0, true, false, none⟩, ⟨"y", 1, false, false, none⟩], -1⟩
            (.vStruct (.tStruct "T3" [.mk "X" ",omitempty" "" false .tInt,
                .mk "Y" "" "" false .tString])
              [.vInt 0, .vString "hello"]))))) :=
  c1_amended
    (.tStruct "T3" [.mk "X" ",omitempty" "" false .tInt, .mk "Y" "" "" false .tString])
    [.vInt 0, .vString "hello"]
    ⟨some [("y", .vString "hello")], some [("x", .vIface none)]⟩
    ⟨[("x", ⟨"x", 0, true, false, none⟩), ("y", ⟨"y", 1, false, false, none⟩)],
     [⟨"x", 0, true, false, none⟩, ⟨"y", 1, false, false, none⟩], -1⟩
    rfl rfl (by decide)

/-- C2: for every record field other than the identity key, on a
successful `AsUpdate` the field's key lands in `Unset` (with the ignored
`nil` placeholder) exactly when the field is omit-if-empty and its value
is classified zero, and otherwise lands in `Set` mapped to the field's
current value — never in both; the classification depends only on the
field's own annotation and value. -/
theorem c2_field_classification : ∀ (ty : GoType) (vals : List GoVal)
    (u : Update) (sinfo : StructInfo) (info : FieldInfo),
    AsUpdate (.vStruct ty vals) = .ret u none →
    getStructInfo ty = .ok sinfo →
    (keysOf (inlineEntries sinfo (.vStruct ty vals))).Nodup →
    info ∈ sinfo.fieldsList →
    info.key ≠ "_id" →
    ((info.omitEmpty && isZero (fieldVal (.vStruct ty vals) info)) = true →
      (∃ uns, u.unset = some uns ∧
        uns.lookup info.key = some (.vIface none)) ∧
      info.key ∉ docKeys u.set) ∧
    ((info.omitEmpty && isZero (fieldVal (.vStruct ty vals) info)) = false →
      (∃ s, u.set = some s ∧
        s.lookup info.key = some (fieldVal (.vStruct ty vals) info)) ∧
      info.key ∉ docKeys u.unset) := by
  intro ty vals u sinfo info hA hsi hnd hmem hid
  rw [asUpdate_vStruct] at hA
  obtain ⟨hset, hunset, hfresh⟩ := structAsUpdate_ok hsi hnd hA
  obtain ⟨hpar, hndf⟩ := getStructInfo_inv hsi
  constructor
  · intro hz
    constructor
    · refine ⟨_, hunset, ?_⟩
      exact lookup_filterMap_self _ _ hndf hmem (by simp [hid, hz])
    · rw [hset]
      intro hk
      have hk2 : info.key ∈
          keysOf ((inlineEntries sinfo (.vStruct ty vals)).filter
              (fun p => !(p.1 == "_id")) ++
            (sinfo.fieldsList.filter fun j => !(j.key == "_id") &&
                !(j.omitEmpty && isZero (fieldVal (.vStruct ty vals) j))).map
              fun j => (j.key, fieldVal (.vStruct ty vals) j)) := hk
      rw [keysOf_append, List.mem_append] at hk2
      rcases hk2 with hinl | hsadd
      · rw [mem_keysOf_filter] at hinl
        obtain ⟨x, hx, _⟩ := hinl
        exact hfresh info.key (mem_keysOf.mpr ⟨x, hx⟩)
          (List.mem_map_of_mem FieldInfo.key hmem)
      · rw [mem_keys_filterMap] at hsadd
        obtain ⟨j, hj, hp, hk3⟩ := hsadd
        have hji : j = info := key_inj_of_nodup hndf hj hmem hk3
        subst hji
        rw [Bool.and_eq_true] at hp
        have hc := hp.2
        rw [hz] at hc
        simp at hc
  · intro hz
    constructor
    · refine ⟨_, hset, ?_⟩
      have hnotinl : info.key ∉
          keysOf ((inlineEntries sinfo (.vStruct ty vals)).filter
            fun p => !(p.1 == "_id")) := by
        intro hk
        rw [mem_keysOf_filter] at hk
        obtain ⟨x, hx, _⟩ := hk
        exact hfresh info.key (mem_keysOf.mpr ⟨x, hx⟩)
          (List.mem_map_of_mem FieldInfo.key hmem)
      rw [lookup_append_right _ hnotinl]
      exact lookup_filterMap_self _ _ hndf hmem (by simp [hid, hz])
    · rw [hunset]
      intro hk
      have hk2 : info.key ∈
          keysOf ((sinfo.fieldsList.filter fun j => !(j.key == "_id") &&
              (j.omitEmpty && isZero (fieldVal (.vStruct ty vals) j))).map
            fun j => (j.key, GoVal.vIface none)) := hk
      rw [mem_keys_filterMap] at hk2
      obtain ⟨j, hj, hp, hk3⟩ := hk2
      have hji : j = info := key_inj_of_nodup hndf hj hmem hk3
      subst hji
      rw [Bool.and_eq_true] at hp
      have hc := hp.2
      rw [hz] at hc
      cases hc

theorem c2_witness :
    ((FieldInfo.mk "x" 0 true false none).omitEmpty &&
        isZero (fieldVal (.vStruct (.tStruct "T3"
            [.mk "X" ",omitempty" "" false .tInt, .mk "Y" "" "" false .tString])
          [.vInt 0, .vString "hello"]) ⟨"x", 0, true, false, none⟩)) = true ∧
    (∃ uns, (Update.mk (some [("y", GoVal.vString "hello")])
        (some [("x", GoVal.vIface none)])).unset = some uns ∧
      uns.lookup "x" = some (GoVal.vIface none)) := by
  refine ⟨by decide, ?_⟩
  have h := (c2_field_classification
    (.tStruct "T3" [.mk "X" ",omitempty" "" false .tInt, .mk "Y" "" "" false .tString])
    [.vInt 0, .vString "hello"]
    ⟨some [("y", .vString "hello")], some [("x", .vIface none)]⟩
    ⟨[("x", ⟨"x", 0, true, false, none⟩), ("y", ⟨"y", 1, false, false, none⟩)],
     [⟨"x", 0, true, false, none⟩, ⟨"y", 1, false, false, none⟩], -1⟩
    ⟨"x", 0, true, false, none⟩
    rfl rfl (by decide) (List.mem_cons_self _ _) (by decide)).1 (by decide)
  exact h.1

/-- The `structWithDupKeys` record type of the repository's tests: two
fields both resolving to the document key `name`. -/
def dupDirectTy : GoType :=
  .tStruct "mgoutil_test.structWithDupKeys"
    [.mk "Name" "" "" false .tUint, .mk "Other" "name" "" false .tUint]

/-- A record type whose inlined nested record splices a field whose key
collides with a directly declared one. -/
def dupInlineTy : GoType :=
  .tStruct "Outer"
    [.mk "A" "" "" false .tInt,
     .mk "V" ",inline" "" false (.tStruct "Inner" [.mk "A" "" "" false .tInt])]

/-- C6: descriptor construction succeeds only with pairwise-distinct
document keys, so a record type declaring two fields that resolve to the
same key — directly or via inline splicing — fails; on the
representative duplicate types the failure is the duplicate-key error
naming the clashing key and the owning record type, and `AsUpdate` on
such a record returns that error. -/
theorem c6_duplicate_keys :
    (∀ (st : GoType) (sinfo : StructInfo), getStructInfo st = .ok sinfo →
      (sinfo.fieldsList.map FieldInfo.key).Nodup) ∧
    getStructInfo dupDirectTy =
      .err "Duplicated key \u0027name\u0027 in struct mgoutil_test.structWithDupKeys" ∧
    getStructInfo dupInlineTy = .err "Duplicated key \u0027a\u0027 in struct Outer" ∧
    AsUpdate (.vStruct dupDirectTy [.vUint 0, .vUint 0]) =
      .ret Update.zero
        (some "Duplicated key \u0027name\u0027 in struct mgoutil_test.structWithDupKeys") :=
  ⟨fun _ _ h => (getStructInfo_inv h).2, rfl, rfl, rfl⟩

theorem c6_witness :
    (([⟨"x", 0, true, false, none⟩, ⟨"y", 1, false, false, none⟩] :
      List FieldInfo).map FieldInfo.key).Nodup :=
  c6_duplicate_keys.1
    (.tStruct "T3" [.mk "X" ",omitempty" "" false .tInt, .mk "Y" "" "" false .tString])
    ⟨[("x", ⟨"x", 0, true, false, none⟩), ("y", ⟨"y", 1, false, false, none⟩)],
     [⟨"x", 0, true, false, none⟩, ⟨"y", 1, false, false, none⟩], -1⟩ rfl

/-- C7: for a record with a non-empty inline mapping field: an entry
whose key equals a declared field key makes `AsUpdate` fail with an error
identifying that key; on success every entry other than the reserved
`_id` key has become a `Set` assignment carrying its value, and `_id`
appears in neither mapping. -/
theorem c7_inline_map : ∀ (ty : GoType) (vals : List GoVal)
    (sinfo : StructInfo) (ks : Bool) (entries : Doc),
    getStructInfo ty = .ok sinfo →
    sinfo.inlineMap ≥ 0 →
    structField (.vStruct ty vals) sinfo.inlineMap.toNat = .vMap ks entries →
    (keysOf entries).Nodup →
    ((∃ k ∈ keysOf entries, (sinfo.fieldsMap.lookup k).isSome = true) →
      ∃ k, k ∈ keysOf entries ∧ (sinfo.fieldsMap.lookup k).isSome = true ∧
        AsUpdate (.vStruct ty vals) = .ret Update.zero
          (some ("Can\u0027t have key \"" ++ k ++
            "\" in inlined map; conflicts with struct field"))) ∧
    (∀ (u : Update), AsUpdate (.vStruct ty vals) = .ret u none →
      (∀ k x, (k, x) ∈ entries → k ≠ "_id" →
        ∃ s, u.set = some s ∧ s.lookup k = some x) ∧
      "_id" ∉ docKeys u.set ∧ "_id" ∉ docKeys u.unset) := by
  intro ty vals sinfo ks entries hsi him hsf hnd
  have hie : inlineEntries sinfo (.vStruct ty vals) = entries := by
    rw [inlineEntries, if_pos him, hsf]
  constructor
  · rintro ⟨k0, hk0, hs0⟩
    have hlen : entries.length ≠ 0 := by
      intro hl
      rw [List.length_eq_zero.mp hl] at hk0
      simp [keysOf] at hk0
    obtain ⟨k, hk, hksome, herr⟩ :=
      inlineLoop_err_of_collision sinfo.fieldsMap entries [] ⟨k0, hk0, hs0⟩
    refine ⟨k, hk, hksome, ?_⟩
    have hs1 : inlineSet sinfo (.vStruct ty vals) =
        .err ("Can\u0027t have key \"" ++ k ++
          "\" in inlined map; conflicts with struct field") := by
      simp only [inlineSet, if_pos him, hsf]
      rw [if_pos hlen]
      exact herr
    rw [asUpdate_vStruct]
    cases ty <;> simp only [structAsUpdate, hsi, hs1]
  · intro u hA
    have hnd2 : (keysOf (inlineEntries sinfo (.vStruct ty vals))).Nodup := by
      rw [hie]
      exact hnd
    have hA2 := hA
    rw [asUpdate_vStruct] at hA2
    obtain ⟨hset, hunset, hfresh⟩ := structAsUpdate_ok hsi hnd2 hA2
    refine ⟨?_, asUpdate_no_id hA⟩
    intro k x hmem hkid
    refine ⟨_, hset, ?_⟩
    rw [hie]
    have hlk : (entries.filter fun p => !(p.1 == "_id")).lookup k = some x :=
      lookup_filter_mem hnd hmem (by simp [hkid])
    exact lookup_append_left _ hlk

theorem c7_witness :
    ∃ k, k ∈ keysOf [("a", GoVal.vInt 1)] ∧
      ((([("a", FieldInfo.mk "a" 0 false false none)] :
        List (String × FieldInfo)).lookup k).isSome = true) ∧
      AsUpdate (.vStruct inlineMapTy [.vInt 1, .vMap true [("a", .vInt 1)]]) =
        .ret Update.zero
          (some ("Can\u0027t have key \"" ++ k ++
            "\" in inlined map; conflicts with struct field")) :=
  (c7_inline_map inlineMapTy [.vInt 1, .vMap true [("a", .vInt 1)]]
    ⟨[("a", ⟨"a", 0, false, false, none⟩)], [⟨"a", 0, false, false, none⟩], 1⟩
    true [("a", .vInt 1)] rfl (by decide) rfl (by decide)).1
    ⟨"a", by decide, rfl⟩

end Mgoutil
